import Mathlib

/-!
Verification of the geometry-reduction pipeline of the NIF mesh exporter
(`io_scene_niftools/modules/nif_export/geometry/mesh/__init__.py`).

The per-material export loop of `Mesh.export_tri_shapes` is embedded shallowly:
machine floats are modelled as exact rationals, Blender/host objects are reduced
to the data the modelled code paths actually read, and every fatal `NifError`
raise is an `Except.error`.  Line numbers in doc comments refer to the source
file above.
-/

namespace NifMesh

unseal Rat.add Rat.sub Rat.mul Rat.inv

/-- The `vertquad = (fv, fuv, fn, f_col)` tuple built at source line 262:
position, uv coordinates (one pair per uv layer), optional split normal and
optional vertex color of one face corner. -/
structure VertQuad where
  fv : ℚ × ℚ × ℚ
  fuv : List (ℚ × ℚ)
  fn : Option (ℚ × ℚ × ℚ)
  f_col : Option (ℚ × ℚ × ℚ × ℚ)
deriving DecidableEq

def emptyVertQuad : VertQuad := ⟨(0, 0, 0), [], none, none⟩

/-- The fatal `NifError` conditions raised by the modelled code paths. -/
inductive NifError where
  | tooManyVertices
  | tooManyPolygons
  | multipleUVLayers
  | unassignedBodyPart
  | unweightedVertex
  | missingSkeletonRoot
  | boneNotFound
deriving DecidableEq

/-- Target game, as far as the modelled branches distinguish it. -/
inductive Game where
  | morrowind
  | oblivion
  | fallout3
  | skyrim
  | otherGame
deriving DecidableEq

/-- Source lines 706-723, `Mesh.is_new_face_corner_data`: true when some
present uv / normal / color component of the two quads differs by more than
`epsilon`.  As in the source, attribute presence is decided on the old quad
(`v_quad_old[1]`, `v_quad_old[2]`, `v_quad_old[3]`); components of the new
quad are read with a zero default where the source relies on both quads
having the same shape (they always do in the export loop).  The source
compares `max(...) > epsilon` over the uv layers per component, which equals
the `any` below. -/
def is_new_face_corner_data (epsilon : ℚ) (vertquad v_quad_old : VertQuad) : Bool :=
  (decide (v_quad_old.fuv ≠ []) &&
    ((List.range v_quad_old.fuv.length).any (fun k =>
        decide (epsilon < |(vertquad.fuv.getD k (0, 0)).1 - (v_quad_old.fuv.getD k (0, 0)).1|)) ||
     (List.range v_quad_old.fuv.length).any (fun k =>
        decide (epsilon < |(vertquad.fuv.getD k (0, 0)).2 - (v_quad_old.fuv.getD k (0, 0)).2|))))
  ||
  (match v_quad_old.fn with
   | some n_old =>
     let n_new := vertquad.fn.getD (0, 0, 0)
     decide (epsilon < |n_new.1 - n_old.1|) || decide (epsilon < |n_new.2.1 - n_old.2.1|) ||
       decide (epsilon < |n_new.2.2 - n_old.2.2|)
   | none => false)
  ||
  (match v_quad_old.f_col with
   | some c_old =>
     let c_new := vertquad.f_col.getD (0, 0, 0, 0)
     decide (epsilon < |c_new.1 - c_old.1|) || decide (epsilon < |c_new.2.1 - c_old.2.1|) ||
       decide (epsilon < |c_new.2.2.1 - c_old.2.2.1|) ||
       decide (epsilon < |c_new.2.2.2 - c_old.2.2.2|)
   | none => false)

/-- One face corner: the loop body data of source lines 238-262.  The quad is
carried directly (its normal already resolved from `use_smooth`, which the
claims do not depend on). -/
structure Corner where
  vertex_index : Nat
  quad : VertQuad
deriving DecidableEq

/-- One polygon of the evaluated mesh: its `poly.index`, `material_index`
and corner list. -/
structure Polygon where
  index : Nat
  material_index : Nat
  corners : List Corner
deriving DecidableEq

/-- The per-material-group inputs read by the modelled part of
`export_tri_shapes` (lines 194-332). -/
structure GroupInput where
  epsilon : ℚ
  game : Game
  uv_layer_count : Nat
  mesh_hasnormals : Bool
  mesh_hasvcol : Bool
  b_mat_some : Bool
  b_mat_index : Nat
  scale : ℚ × ℚ × ℚ
  num_vertices : Nat
  polygons : List Polygon
  polygon_parts : List Int
  num_uv_sets : Nat
deriving DecidableEq

/-- `if b_uv_layers:` truthiness. -/
def GroupInput.hasUV (inp : GroupInput) : Bool := decide (0 < inp.uv_layer_count)

/-- `b_obj.scale.x + b_obj.scale.y + b_obj.scale.z` (line 301). -/
def GroupInput.scale_sum (inp : GroupInput) : ℚ :=
  inp.scale.1 + inp.scale.2.1 + inp.scale.2.2

/-- The mutable per-group lists of lines 195-204.  `vertex_map` is the Python
list `[None]*len(eval_mesh.vertices)`; `polygons_without_bodypart` stores the
indices of the offending polygons. -/
structure GroupState where
  vertquad_list : List VertQuad
  vertex_map : List (Option (List Nat))
  vertex_positions : List (ℚ × ℚ × ℚ)
  normals : List (ℚ × ℚ × ℚ)
  vertex_colors : List (ℚ × ℚ × ℚ × ℚ)
  uv_coords : List (List (ℚ × ℚ))
  triangles : List (Nat × Nat × Nat)
  bodypartfacemap : List Int
  polygons_without_bodypart : List Nat
deriving DecidableEq

def init_group_state (num_vertices : Nat) : GroupState :=
  { vertquad_list := []
    vertex_map := List.replicate num_vertices none
    vertex_positions := []
    normals := []
    vertex_colors := []
    uv_coords := []
    triangles := []
    bodypartfacemap := []
    polygons_without_bodypart := [] }

/-- Lines 279-297: register a fresh welded vertex (append to `vertex_map`,
`vertquad_list` and the per-attribute arrays; tangent arrays are outside the
modelled claims).  Python's `if not vertex_map[vertex_index]: ... = []` makes
`None` and `[]` interchangeable here, hence the `getD []`. -/
def append_state (inp : GroupInput) (st : GroupState) (c : Corner) : GroupState :=
  { st with
    vertex_map := st.vertex_map.set c.vertex_index
      (some (((st.vertex_map.getD c.vertex_index none).getD []) ++ [st.vertquad_list.length]))
    vertquad_list := st.vertquad_list ++ [c.quad]
    vertex_positions := st.vertex_positions ++ [c.quad.fv]
    normals := if inp.mesh_hasnormals then st.normals ++ [c.quad.fn.getD (0, 0, 0)] else st.normals
    vertex_colors :=
      if inp.mesh_hasvcol then st.vertex_colors ++ [c.quad.f_col.getD (0, 0, 0, 0)]
      else st.vertex_colors
    uv_coords := if inp.hasUV then st.uv_coords ++ [c.quad.fuv] else st.uv_coords }

/-- Lines 264-297, the body of the per-corner dedup loop: search the welded
candidates already created from the same source vertex (first match, in
insertion order, wins); raise `Too many vertices` when the chosen index
exceeds 65535; append a new welded vertex when no candidate matched. -/
def process_corner (inp : GroupInput) (st : GroupState) (c : Corner) :
    Except NifError (GroupState × Nat) :=
  let f_i :=
    match st.vertex_map.getD c.vertex_index none with
    | some js =>
      match js.find? (fun j =>
          ! is_new_face_corner_data inp.epsilon c.quad (st.vertquad_list.getD j emptyVertQuad)) with
      | some j => j
      | none => st.vertquad_list.length
    | none => st.vertquad_list.length
  if 65535 < f_i then .error .tooManyVertices
  else if f_i = st.vertquad_list.length then .ok (append_state inp st c, f_i)
  else .ok (st, f_i)

/-- The corner loop of line 238, returning the `f_index` list of the polygon. -/
def process_corners (inp : GroupInput) : GroupState → List Corner →
    Except NifError (GroupState × List Nat)
  | st, [] => .ok (st, [])
  | st, c :: rest =>
    match process_corner inp st c with
    | .error e => .error e
    | .ok (st1, f_i) =>
      match process_corners inp st1 rest with
      | .error e => .error e
      | .ok (st2, f_is) => .ok (st2, f_i :: f_is)

/-- The candidate search of lines 266-274 in isolation: the first already
welded vertex of the same source vertex whose face-corner data matches. -/
def corner_match (inp : GroupInput) (st : GroupState) (c : Corner) : Option Nat :=
  ((st.vertex_map.getD c.vertex_index none).getD []).find? (fun j =>
    ! is_new_face_corner_data inp.epsilon c.quad (st.vertquad_list.getD j emptyVertQuad))

/-- Lines 299-305: fan a polygon's `f_index` list into `f_numverts - 2`
triangles, with the winding swapped when the scale sum is not positive. -/
def fan_triangles (scale_sum : ℚ) (f_index : List Nat) (f_numverts : Nat) :
    List (Nat × Nat × Nat) :=
  (List.range (f_numverts - 2)).map (fun i =>
    if 0 < scale_sum then
      (f_index.getD 0 0, f_index.getD (1 + i) 0, f_index.getD (2 + i) 0)
    else
      (f_index.getD 0 0, f_index.getD (2 + i) 0, f_index.getD (1 + i) 0))

/-- Lines 307-318, evaluated once per emitted triangle of one polygon: the
body-part tags appended to `bodypartfacemap` and the entries appended to
`polygons_without_bodypart` (the source appends the same polygon once per
triangle). -/
def poly_bodyparts (inp : GroupInput) (poly : Polygon) (n_tris : Nat) :
    List Int × List Nat :=
  if (inp.game ≠ Game.fallout3 ∧ inp.game ≠ Game.skyrim) ∨ inp.polygon_parts = [] then
    (List.replicate n_tris 0, [])
  else
    let part_index := inp.polygon_parts.getD poly.index (-1)
    if 0 ≤ part_index then (List.replicate n_tris part_index, [])
    else ([], List.replicate n_tris poly.index)

/-- Lines 224-318, one iteration of `for poly in eval_mesh.polygons`: skip
polygons of other materials and degenerate polygons, dedup the corners, then
append the fanned triangles and their body-part tags.  The source interleaves
the three appends in one loop over `range(f_numverts - 2)`; batching them per
field preserves each list exactly. -/
def process_poly (inp : GroupInput) (st : GroupState) (poly : Polygon) :
    Except NifError GroupState :=
  if inp.b_mat_some = true ∧ poly.material_index ≠ inp.b_mat_index then .ok st
  else if poly.corners.length < 3 then .ok st
  else
    match process_corners inp st poly.corners with
    | .error e => .error e
    | .ok (st1, f_index) =>
      let bps := poly_bodyparts inp poly (poly.corners.length - 2)
      .ok { st1 with
            triangles := st1.triangles ++
              fan_triangles inp.scale_sum f_index poly.corners.length
            bodypartfacemap := st1.bodypartfacemap ++ bps.1
            polygons_without_bodypart := st1.polygons_without_bodypart ++ bps.2 }

def process_polys (inp : GroupInput) : GroupState → List Polygon →
    Except NifError GroupState
  | st, [] => .ok st
  | st, poly :: rest =>
    match process_poly inp st poly with
    | .error e => .error e
    | .ok st1 => process_polys inp st1 rest

/-- Lines 464-471 of `set_geom_data`: fill `uv_sets[j][i]` from
`uv_coords[i][j]`, writing `u` unchanged and `v` as `1 - v`; vertices with an
empty uv row are skipped and keep the reset default `(0, 0)`. -/
def set_geom_data_uvs (uv_coords : List (List (ℚ × ℚ))) (num_uv_sets num_vertices : Nat) :
    List (List (ℚ × ℚ)) :=
  (List.range num_uv_sets).map (fun j =>
    (List.range num_vertices).map (fun i =>
      let row := uv_coords.getD i []
      if row.length = 0 then (0, 0)
      else ((row.getD j (0, 0)).1, 1 - (row.getD j (0, 0)).2)))

/-- The geometry written to the `NiTriShapeData` block by `set_geom_data`
(line 329) and `set_triangles` (line 332). -/
structure GroupOutput where
  positions : List (ℚ × ℚ × ℚ)
  out_normals : List (ℚ × ℚ × ℚ)
  out_vertex_colors : List (ℚ × ℚ × ℚ × ℚ)
  uv_sets : List (List (ℚ × ℚ))
  out_triangles : List (Nat × Nat × Nat)
deriving DecidableEq

/-- One round of the per-material loop, lines 220-332: the multi-uv-layer
check for Fallout 3 / Skyrim, the polygon loop, the unassigned-body-part
check, the triangle-capacity check, the empty-material `continue` (result
`none`) and finally the write of the geometry data.  Texture, material and
skin handling around it do not touch these lists. -/
def export_material_group (inp : GroupInput) : Except NifError (Option GroupOutput) :=
  if (inp.game = Game.fallout3 ∨ inp.game = Game.skyrim) ∧ 1 < inp.uv_layer_count then
    .error .multipleUVLayers
  else
    match process_polys inp (init_group_state inp.num_vertices) inp.polygons with
    | .error e => .error e
    | .ok st =>
      if st.polygons_without_bodypart ≠ [] then .error .unassignedBodyPart
      else if 65535 < st.triangles.length then .error .tooManyPolygons
      else if st.vertex_positions.length = 0 then .ok none
      else .ok (some
        { positions := st.vertex_positions
          out_normals := st.normals
          out_vertex_colors := st.vertex_colors
          uv_sets := set_geom_data_uvs st.uv_coords inp.num_uv_sets st.vertex_positions.length
          out_triangles := st.triangles })

/-! ### Skin weight collection and normalization (lines 362-413) -/

/-- One element of `b_vert.groups`: a vertex-group index and the raw weight. -/
structure BVertGroup where
  group : Nat
  weight : ℚ
deriving DecidableEq

/-- One element of `eval_mesh.vertices`, reduced to what the weight loop
reads. -/
structure BVert where
  index : Nat
  groups : List BVertGroup
deriving DecidableEq

/-- Lines 371-382, the inner loop of `for bone_group in boneinfluences`:
vertices with an empty group list are skipped (they go to
`unweighted_vertices`), otherwise the first group entry whose index equals the
bone's vertex-group index contributes `(b_vert.index, g.weight)`.  The
source's `if b_vert_group.name in boneinfluences` test is vacuously true
because the group is drawn from `boneinfluences`. -/
def b_entry (vg_index : Nat) (v : BVert) : Option (Nat × ℚ) :=
  if v.groups = [] then none
  else (v.groups.find? (fun g => decide (g.group = vg_index))).map
    (fun g => (v.index, g.weight))

def b_list_weight (vg_index : Nat) (verts : List BVert) : List (Nat × ℚ) :=
  verts.filterMap (b_entry vg_index)

/-- Lines 372-373 collect `b_vert.index` into `unweighted_vertices` for every
vertex with an empty group list; because the check sits inside the per-bone
loop, each such vertex is appended once per influencing bone. -/
def collect_unweighted (boneinfluences : List String) (verts : List BVert) : List Nat :=
  boneinfluences.flatMap (fun _ =>
    verts.filterMap (fun v => if v.groups = [] then some v.index else none))

/-- Lines 386-389: `vert_norm[v[0]] += v[1]` with insertion on first sight. -/
def vert_norm_update (m : Nat → Option ℚ) (p : Nat × ℚ) : Nat → Option ℚ :=
  fun k => if k = p.1 then some ((m p.1).getD 0 + p.2) else m k

/-- The `vert_norm` dictionary after the whole loop of lines 367-389: fold the
update over every bone's weight list. -/
def vert_norm (boneinfluences : List String) (vg_index_of : String → Nat)
    (verts : List BVert) : Nat → Option ℚ :=
  boneinfluences.foldl
    (fun m b => (b_list_weight (vg_index_of b) verts).foldl vert_norm_update m)
    (fun _ => none)

/-- Lines 638-660, `select_unweighted_vertices`: raise once the collected
unweighted list is nonempty (the Blender selection side effects do not touch
the export data and are not modelled). -/
def select_unweighted_vertices (unweighted_vertices : List Nat) : Except NifError Unit :=
  if 0 < unweighted_vertices.length then .error .unweightedVertex else .ok ()

/-- Lines 396-408, the `vert_weights` assignments of one bone: for every
`(vertex, raw_weight)` pair of the bone whose source vertex has a nonempty
`vertex_map` entry and a nonzero `vert_norm`, assign
`raw_weight / vert_norm[v]` to every welded copy of the vertex. -/
def bone_vert_weights (vg_index : Nat) (verts : List BVert)
    (vertex_map : List (Option (List Nat))) (norm : Nat → Option ℚ) : List (Nat × ℚ) :=
  (b_list_weight vg_index verts).flatMap (fun v =>
    if (vertex_map.getD v.1 none).getD [] ≠ [] ∧ (norm v.1).getD 0 ≠ 0 then
      ((vertex_map.getD v.1 none).getD []).map (fun w => (w, v.2 / (norm v.1).getD 0))
    else [])

/-- The raw weight the bone with vertex-group index `vg_index` contributes to
source vertex `vi` (the unique entry of `b_list_weight` keyed by `vi`). -/
def raw_weight (vg_index : Nat) (verts : List BVert) (vi : Nat) : Option ℚ :=
  ((b_list_weight vg_index verts).find? (fun p => decide (p.1 = vi))).map Prod.snd

/-! ### Bind-position pose toggling (lines 515-553) -/

/-- The armature's `data.pose_position` enum. -/
inductive PosePosition where
  | rest
  | pose
deriving DecidableEq

/-- The bone loop of lines 543-549: each bone's transform is sampled as a
function of the current `pose_position` state; a failed lookup (for example a
missing pose bone) raises, carrying the state the exception escapes with.
The loop itself never changes the state. -/
def run_bone_samples {α : Type} :
    List (PosePosition → Option α) → PosePosition →
      Except (NifError × PosePosition) (List α × PosePosition)
  | [], s => .ok ([], s)
  | f :: rest, s =>
    match f s with
    | none => .error (.boneNotFound, s)
    | some a =>
      match run_bone_samples rest s with
      | .error e => .error e
      | .ok (vs, s1) => .ok (a :: vs, s1)

/-- Lines 539-553 of `update_bind_position`: save `pose_position`, force it to
`'POSE'`, sample all bone transforms, and write the saved value back — with no
`try/finally`, so an exception in the loop escapes with the state still
`pose`. -/
def update_bind_position {α : Type} (s0 : PosePosition)
    (samples : List (PosePosition → Option α)) :
    Except (NifError × PosePosition) (List α × PosePosition) :=
  let old_position := s0
  match run_bone_samples samples PosePosition.pose with
  | .error e => .error e
  | .ok (vs, _) => .ok (vs, old_position)

/-- Specification-side helper: the values produced when every sample is read
in state `s` and all succeed. -/
def sample_all {α : Type} : List (PosePosition → Option α) → PosePosition →
    Option (List α)
  | [], _ => some []
  | f :: rest, s =>
    match f s with
    | none => none
    | some a => (sample_all rest s).map (fun l => a :: l)

/-! ### Skeleton root lookup (lines 581-600) -/

/-- An already exported block, reduced to what `create_skin_inst_data`
inspects: whether it is a `NiNode`, and its name. -/
structure NifBlock where
  isNiNode : Bool
  name : String
deriving DecidableEq

/-- Lines 588-592: the custom `skeleton_root` property if set (truthy =
nonempty), otherwise the armature's full name. -/
def chosen_skeleton_root_name (skeleton_root_prop armature_full_name : String) : String :=
  if skeleton_root_prop ≠ "" then skeleton_root_prop else armature_full_name

/-- Lines 594-598: the `for ... else` search over `block_store.block_to_obj`
for the first `NiNode` bearing the chosen name. -/
def find_skeleton_root (blocks : List NifBlock) (n_root_name : String) : Option NifBlock :=
  blocks.find? (fun b => b.isNiNode && b.name == n_root_name)

/-- Lines 581-600 of `create_skin_inst_data`, reduced to the skeleton-root
resolution: the found root block, or the fatal `Skeleton root ... not found`
error of the `for`-`else`. -/
def create_skin_inst_data (blocks : List NifBlock)
    (skeleton_root_prop armature_full_name : String) : Except NifError NifBlock :=
  match find_skeleton_root blocks
      (chosen_skeleton_root_name skeleton_root_prop armature_full_name) with
  | some b => .ok b
  | none => .error .missingSkeletonRoot

/-- Decidable equality on `Except`, used to evaluate the model on concrete
inputs. -/
instance exceptDecidableEq {e a : Type} [DecidableEq e] [DecidableEq a] :
    DecidableEq (Except e a) := fun x y =>
  match x, y with
  | .error e1, .error e2 =>
    match decEq e1 e2 with
    | isTrue h => isTrue (h ▸ rfl)
    | isFalse h => isFalse (fun hc => h (Except.error.inj hc))
  | .ok a1, .ok a2 =>
    match decEq a1 a2 with
    | isTrue h => isTrue (h ▸ rfl)
    | isFalse h => isFalse (fun hc => h (Except.ok.inj hc))
  | .error _, .ok _ => isFalse (fun hc => Except.noConfusion hc)
  | .ok _, .error _ => isFalse (fun hc => Except.noConfusion hc)

/-- Invariant of every state reachable by the corner loop: at most 65536
welded vertices exist, and every candidate registered in `vertex_map` indexes
an existing entry of `vertquad_list`. -/
def StInv (st : GroupState) : Prop :=
  st.vertquad_list.length ≤ 65536 ∧
    ∀ vi j, j ∈ (st.vertex_map.getD vi none).getD [] → j < st.vertquad_list.length

/-- Inputs for the C1 counterexample: one source vertex, one uv layer,
tolerance `epsilon = 1`, no normals or colors. -/
def c1_inp : GroupInput :=
  { epsilon := 1, game := Game.morrowind, uv_layer_count := 1, mesh_hasnormals := false
    mesh_hasvcol := false, b_mat_some := false, b_mat_index := 0, scale := (1, 1, 1)
    num_vertices := 1, polygons := [], polygon_parts := [], num_uv_sets := 1 }

def c1A : Corner := ⟨0, ⟨(0, 0, 0), [(0, 0)], none, none⟩⟩

def c1B : Corner := ⟨0, ⟨(0, 0, 0), [(2, 0)], none, none⟩⟩

def c1C : Corner := ⟨0, ⟨(0, 0, 0), [(1, 0)], none, none⟩⟩

/-- The state after `c1A` has been processed from the initial state. -/
def c1_stA : GroupState :=
  { vertquad_list := [c1A.quad]
    vertex_map := [some [0]]
    vertex_positions := [(0, 0, 0)]
    normals := []
    vertex_colors := []
    uv_coords := [[(0, 0)]]
    triangles := []
    bodypartfacemap := []
    polygons_without_bodypart := [] }

/-- The state after `c1A` and `c1B` have been processed. -/
def c1_stAB : GroupState :=
  { vertquad_list := [c1A.quad, c1B.quad]
    vertex_map := [some [0, 1]]
    vertex_positions := [(0, 0, 0), (0, 0, 0)]
    normals := []
    vertex_colors := []
    uv_coords := [[(0, 0)], [(2, 0)]]
    triangles := []
    bodypartfacemap := []
    polygons_without_bodypart := [] }

/-- Corner `k` of the C2 capacity run: source vertex `k`, no uv / normal /
color payload. -/
def distinct_corner (k : Nat) : Corner := ⟨k, ⟨(0, 0, 0), [], none, none⟩⟩

def distinct_corners (n : Nat) : List Corner := (List.range n).map distinct_corner

/-- Inputs for the C2 capacity run: 65537 source vertices, no attribute
layers. -/
def c2_inp : GroupInput :=
  { epsilon := 0, game := Game.morrowind, uv_layer_count := 0, mesh_hasnormals := false
    mesh_hasvcol := false, b_mat_some := false, b_mat_index := 0, scale := (1, 1, 1)
    num_vertices := 65537, polygons := [], polygon_parts := [], num_uv_sets := 0 }

/-- An attribute-free quad at position `(x, 0, 0)`, used by concrete runs. -/
def plain_quad (x : ℚ) : VertQuad := ⟨(x, 0, 0), [], none, none⟩

/-- A quad polygon over the four source vertices, for the C4 run. -/
def c4_poly : Polygon :=
  ⟨0, 0, [⟨0, plain_quad 0⟩, ⟨1, plain_quad 1⟩, ⟨2, plain_quad 2⟩, ⟨3, plain_quad 3⟩]⟩

def c4_inp : GroupInput :=
  { epsilon := 0, game := Game.morrowind, uv_layer_count := 0, mesh_hasnormals := false
    mesh_hasvcol := false, b_mat_some := false, b_mat_index := 0, scale := (1, 1, 1)
    num_vertices := 4, polygons := [c4_poly], polygon_parts := [], num_uv_sets := 0 }

/-- The dedup state after the four corners of `c4_poly`. -/
def c4_st1 : GroupState :=
  { vertquad_list := [plain_quad 0, plain_quad 1, plain_quad 2, plain_quad 3]
    vertex_map := [some [0], some [1], some [2], some [3]]
    vertex_positions := [(0, 0, 0), (1, 0, 0), (2, 0, 0), (3, 0, 0)]
    normals := []
    vertex_colors := []
    uv_coords := []
    triangles := []
    bodypartfacemap := []
    polygons_without_bodypart := [] }

/-- The state after the whole of `c4_poly` is processed. -/
def c4_stF : GroupState :=
  { c4_st1 with triangles := [(0, 1, 2), (0, 2, 3)], bodypartfacemap := [0, 0] }

/-- A single-triangle polygon for the C7 run. -/
def c7_poly : Polygon := ⟨0, 0, [⟨0, plain_quad 0⟩, ⟨1, plain_quad 1⟩, ⟨2, plain_quad 2⟩]⟩

def c7_inp : GroupInput :=
  { epsilon := 0, game := Game.morrowind, uv_layer_count := 0, mesh_hasnormals := false
    mesh_hasvcol := false, b_mat_some := false, b_mat_index := 0, scale := (1, 1, 1)
    num_vertices := 3, polygons := [c7_poly], polygon_parts := [], num_uv_sets := 0 }

/-- The state after the polygon loop of `c7_inp`. -/
def c7_st : GroupState :=
  { vertquad_list := [plain_quad 0, plain_quad 1, plain_quad 2]
    vertex_map := [some [0], some [1], some [2]]
    vertex_positions := [(0, 0, 0), (1, 0, 0), (2, 0, 0)]
    normals := []
    vertex_colors := []
    uv_coords := []
    triangles := [(0, 1, 2)]
    bodypartfacemap := [0]
    polygons_without_bodypart := [] }

/-- A Fallout 3 mesh with two uv layers, for the C10 check. -/
def c10_inp : GroupInput :=
  { epsilon := 0, game := Game.fallout3, uv_layer_count := 2, mesh_hasnormals := true
    mesh_hasvcol := false, b_mat_some := false, b_mat_index := 0, scale := (1, 1, 1)
    num_vertices := 3, polygons := [c7_poly], polygon_parts := [], num_uv_sets := 2 }

/-- Concrete skinning data for the C3 witness: one source vertex influenced
by two bones with raw weights 1/4 and 3/4, welded into two copies. -/
def c3_bones : List String := ["BoneA", "BoneB"]

def c3_vg : String → Nat := fun s => if s = "BoneA" then 0 else 1

def c3_verts : List BVert := [⟨0, [⟨0, 1/4⟩, ⟨1, 3/4⟩]⟩]

def c3_vmap : List (Option (List Nat)) := [some [0, 1]]

/-! ### General list lemmas used by the proofs -/

theorem getD_append_left {α : Type} (l l' : List α) (i : Nat) (d : α) (h : i < l.length) :
    (l ++ l').getD i d = l.getD i d := by
  rw [List.getD_eq_getElem?_getD, List.getD_eq_getElem?_getD, List.getElem?_append, if_pos h]

theorem getD_concat_length {α : Type} (l : List α) (a d : α) :
    (l ++ [a]).getD l.length d = a := by
  rw [List.getD_eq_getElem?_getD, List.getElem?_append_right (Nat.le_refl _)]
  simp

theorem getD_set_self {α : Type} (l : List α) (i : Nat) (a d : α) (h : i < l.length) :
    (l.set i a).getD i d = a := by
  rw [List.getD_eq_getElem?_getD, List.getElem?_set_self h]
  rfl

theorem getD_set_ne {α : Type} (l : List α) (i j : Nat) (a d : α) (h : i ≠ j) :
    (l.set i a).getD j d = l.getD j d := by
  rw [List.getD_eq_getElem?_getD, List.getD_eq_getElem?_getD, List.getElem?_set_ne h]

theorem getD_replicate_self {α : Type} (n i : Nat) (a : α) :
    (List.replicate n a).getD i a = a := by
  rw [List.getD_eq_getElem?_getD]
  rcases Nat.lt_or_ge i n with h | h
  · rw [List.getElem?_replicate]
    simp [h]
  · rw [List.getElem?_eq_none (by simpa using h)]
    rfl

theorem find?_append_of_some {α : Type} (p : α → Bool) (l l' : List α) (a : α)
    (h : l.find? p = some a) : (l ++ l').find? p = some a := by
  induction l with
  | nil => simp [List.find?] at h
  | cons b t ih =>
    rw [List.cons_append]
    cases hb : p b with
    | true =>
      rw [List.find?_cons_of_pos _ hb] at h
      rw [List.find?_cons_of_pos _ hb]
      exact h
    | false =>
      have hb' : ¬ p b = true := by simp [hb]
      rw [List.find?_cons_of_neg _ hb'] at h
      rw [List.find?_cons_of_neg _ hb']
      exact ih h

theorem find?_append_of_none {α : Type} (p : α → Bool) (l l' : List α)
    (h : l.find? p = none) : (l ++ l').find? p = l'.find? p := by
  induction l with
  | nil => rfl
  | cons b t ih =>
    rw [List.cons_append]
    cases hb : p b with
    | true => rw [List.find?_cons_of_pos _ hb] at h; cases h
    | false =>
      have hb' : ¬ p b = true := by simp [hb]
      rw [List.find?_cons_of_neg _ hb'] at h
      rw [List.find?_cons_of_neg _ hb']
      exact ih h

theorem find?_congr_of_mem {α : Type} (p q : α → Bool) (l : List α)
    (h : ∀ a ∈ l, p a = q a) : l.find? p = l.find? q := by
  induction l with
  | nil => rfl
  | cons b t ih =>
    have hb := h b (List.mem_cons_self b t)
    cases hq : q b with
    | true =>
      rw [List.find?_cons_of_pos _ (hb.trans hq), List.find?_cons_of_pos _ hq]
    | false =>
      rw [List.find?_cons_of_neg _ (by simp [hb.trans hq]),
        List.find?_cons_of_neg _ (by simp [hq])]
      exact ih (fun a ha => h a (List.mem_cons_of_mem _ ha))

theorem find?_eq_none_of_all {α : Type} (p : α → Bool) (l : List α)
    (h : ∀ a ∈ l, p a = false) : l.find? p = none := by
  rw [List.find?_eq_none]
  intro a ha
  simp [h a ha]

theorem all_of_find?_eq_none {α : Type} (p : α → Bool) (l : List α)
    (h : l.find? p = none) : ∀ a ∈ l, p a = false := by
  rw [List.find?_eq_none] at h
  intro a ha
  simpa using h a ha

theorem sum_map_div {β : Type} (l : List β) (f : β → ℚ) (N : ℚ) :
    (l.map (fun b => f b / N)).sum = (l.map f).sum / N := by
  induction l with
  | nil => simp
  | cons b rest ih => simp [ih, add_div]

/-! ### Dedup engine: reachability invariant and candidate-search lemmas -/

theorem stInv_init (n : Nat) : StInv (init_group_state n) := by
  constructor
  · simp [init_group_state]
  · intro vi j hj
    simp only [init_group_state] at hj
    rw [getD_replicate_self] at hj
    simp at hj

/-- Two identical quads always match when the tolerance is nonnegative. -/
theorem is_new_self (epsilon : ℚ) (h : 0 ≤ epsilon) (q : VertQuad) :
    is_new_face_corner_data epsilon q q = false := by
  have habs : ∀ x : ℚ, ¬ (epsilon < |x - x|) := by
    intro x
    rw [sub_self, abs_zero]
    exact not_lt.mpr h
  unfold is_new_face_corner_data
  cases hn : q.fn <;> cases hc : q.f_col <;>
    simp [habs, h]

/-- `process_corner` rewritten through `corner_match`. -/
theorem process_corner_eq (inp : GroupInput) (st : GroupState) (c : Corner) :
    process_corner inp st c =
      (if 65535 < (corner_match inp st c).getD st.vertquad_list.length then
        .error .tooManyVertices
      else if (corner_match inp st c).getD st.vertquad_list.length = st.vertquad_list.length then
        .ok (append_state inp st c, (corner_match inp st c).getD st.vertquad_list.length)
      else .ok (st, (corner_match inp st c).getD st.vertquad_list.length)) := by
  unfold process_corner corner_match
  cases h : st.vertex_map.getD c.vertex_index none with
  | none => rfl
  | some js =>
    simp only [Option.getD_some]
    cases hf : js.find? (fun j =>
        ! is_new_face_corner_data inp.epsilon c.quad (st.vertquad_list.getD j emptyVertQuad)) with
    | none => rfl
    | some j => rfl

/-- A successful candidate match is reused exactly, leaving the state
untouched. -/
theorem process_corner_of_match (inp : GroupInput) (st : GroupState) (c : Corner) (i : Nat)
    (hinv : StInv st) (hm : corner_match inp st c = some i) :
    process_corner inp st c = .ok (st, i) := by
  have hi : i < st.vertquad_list.length :=
    hinv.2 c.vertex_index i (List.mem_of_find?_eq_some hm)
  have hcap : st.vertquad_list.length ≤ 65536 := hinv.1
  rw [process_corner_eq, hm]
  simp only [Option.getD_some]
  have h1 : ¬ 65535 < i := by omega
  have h2 : ¬ i = st.vertquad_list.length := by omega
  rw [if_neg h1, if_neg h2]

/-- With no matching candidate and room left, a new welded vertex is
appended. -/
theorem process_corner_of_new (inp : GroupInput) (st : GroupState) (c : Corner)
    (hm : corner_match inp st c = none) (hlen : st.vertquad_list.length ≤ 65535) :
    process_corner inp st c = .ok (append_state inp st c, st.vertquad_list.length) := by
  rw [process_corner_eq, hm]
  simp only [Option.getD_none]
  have h1 : ¬ 65535 < st.vertquad_list.length := by omega
  rw [if_neg h1]
  simp

/-- Inversion of a successful `process_corner` under the invariant. -/
theorem process_corner_ok_inv (inp : GroupInput) (st st' : GroupState) (c : Corner) (i : Nat)
    (hinv : StInv st) (h : process_corner inp st c = .ok (st', i)) :
    (corner_match inp st c = some i ∧ st' = st) ∨
      (corner_match inp st c = none ∧ i = st.vertquad_list.length ∧
        st.vertquad_list.length ≤ 65535 ∧ st' = append_state inp st c) := by
  cases hm : corner_match inp st c with
  | some j =>
    left
    rw [process_corner_of_match inp st c j hinv hm] at h
    cases h
    exact ⟨rfl, rfl⟩
  | none =>
    right
    rw [process_corner_eq, hm] at h
    simp only [Option.getD_none] at h
    by_cases hlen : 65535 < st.vertquad_list.length
    · rw [if_pos hlen] at h
      cases h
    · rw [if_neg hlen] at h
      simp only [if_true] at h
      cases h
      exact ⟨rfl, rfl, by omega, rfl⟩

theorem process_corner_preserves_inv (inp : GroupInput) (st st' : GroupState) (c : Corner)
    (i : Nat) (hinv : StInv st) (h : process_corner inp st c = .ok (st', i)) : StInv st' := by
  rcases process_corner_ok_inv inp st st' c i hinv h with ⟨_, rfl⟩ | ⟨_, _, hlen, rfl⟩
  · exact hinv
  constructor
  · simp only [append_state, List.length_append, List.length_cons, List.length_nil]
    omega
  · intro vi j hj
    simp only [append_state, List.length_append, List.length_cons, List.length_nil] at hj ⊢
    by_cases hvi : c.vertex_index = vi
    · subst hvi
      by_cases hlt : c.vertex_index < st.vertex_map.length
      · rw [getD_set_self _ _ _ _ hlt] at hj
        simp only [Option.getD_some] at hj
        rcases List.mem_append.mp hj with hj | hj
        · have := hinv.2 c.vertex_index j hj
          omega
        · simp at hj
          omega
      · rw [List.set_eq_of_length_le (by omega)] at hj
        have := hinv.2 c.vertex_index j hj
        omega
    · rw [getD_set_ne _ _ _ _ _ hvi] at hj
      have := hinv.2 vi j hj
      omega

theorem process_corner_map_length (inp : GroupInput) (st st' : GroupState) (c : Corner)
    (i : Nat) (hinv : StInv st) (h : process_corner inp st c = .ok (st', i)) :
    st'.vertex_map.length = st.vertex_map.length := by
  rcases process_corner_ok_inv inp st st' c i hinv h with ⟨_, rfl⟩ | ⟨_, _, _, rfl⟩
  · rfl
  · simp [append_state]

/-- After a corner is processed, searching the updated state for the same
corner data finds exactly the index it was assigned. -/
theorem corner_match_after_self (inp : GroupInput) (st st' : GroupState) (c : Corner) (i : Nat)
    (heps : 0 ≤ inp.epsilon) (hvi : c.vertex_index < st.vertex_map.length)
    (hinv : StInv st) (h : process_corner inp st c = .ok (st', i)) :
    corner_match inp st' c = some i := by
  rcases process_corner_ok_inv inp st st' c i hinv h with ⟨hm, rfl⟩ | ⟨hm, hi, hlen, rfl⟩
  · exact hm
  · subst hi
    have hall := all_of_find?_eq_none _ _ hm
    unfold corner_match
    simp only [append_state]
    rw [getD_set_self _ _ _ _ hvi]
    simp only [Option.getD_some]
    have hnone : ((st.vertex_map.getD c.vertex_index none).getD []).find?
        (fun j => ! is_new_face_corner_data inp.epsilon c.quad
          ((st.vertquad_list ++ [c.quad]).getD j emptyVertQuad)) = none := by
      apply find?_eq_none_of_all
      intro j hj
      rw [getD_append_left _ _ _ _ (hinv.2 c.vertex_index j hj)]
      simpa using hall j hj
    have hpred : (! is_new_face_corner_data inp.epsilon c.quad
        ((st.vertquad_list ++ [c.quad]).getD st.vertquad_list.length emptyVertQuad)) = true := by
      rw [getD_concat_length, is_new_self inp.epsilon heps c.quad]
      rfl
    rw [find?_append_of_none _ _ _ hnone]
    exact List.find?_cons_of_pos _ hpred

/-- Processing any other corner cannot disturb an established match: the
candidate lists only grow at the end and existing welded quads never change. -/
theorem corner_match_stable (inp : GroupInput) (st st' : GroupState) (c c' : Corner)
    (i i' : Nat) (hinv : StInv st) (hm : corner_match inp st c = some i)
    (h : process_corner inp st c' = .ok (st', i')) :
    corner_match inp st' c = some i := by
  rcases process_corner_ok_inv inp st st' c' i' hinv h with ⟨_, rfl⟩ | ⟨_, _, hlen, rfl⟩
  · exact hm
  · unfold corner_match at hm ⊢
    simp only [append_state]
    have hcands : ∃ tail,
        ((st.vertex_map.set c'.vertex_index
            (some (((st.vertex_map.getD c'.vertex_index none).getD []) ++
              [st.vertquad_list.length]))).getD c.vertex_index none).getD [] =
          ((st.vertex_map.getD c.vertex_index none).getD []) ++ tail := by
      by_cases hvv : c'.vertex_index = c.vertex_index
      · by_cases hbound : c'.vertex_index < st.vertex_map.length
        · refine ⟨[st.vertquad_list.length], ?_⟩
          rw [← hvv, getD_set_self _ _ _ _ hbound]
          simp
        · refine ⟨[], ?_⟩
          rw [List.set_eq_of_length_le (by omega), List.append_nil]
      · refine ⟨[], ?_⟩
        rw [getD_set_ne _ _ _ _ _ hvv, List.append_nil]
    obtain ⟨tail, htail⟩ := hcands
    rw [htail]
    have hfront : ((st.vertex_map.getD c.vertex_index none).getD []).find?
        (fun j => ! is_new_face_corner_data inp.epsilon c.quad
          ((st.vertquad_list ++ [c'.quad]).getD j emptyVertQuad)) = some i := by
      rw [find?_congr_of_mem _ (fun j => ! is_new_face_corner_data inp.epsilon c.quad
          (st.vertquad_list.getD j emptyVertQuad)) _ (fun j hj => by
        rw [getD_append_left _ _ _ _ (hinv.2 c.vertex_index j hj)])]
      exact hm
    exact find?_append_of_some _ _ _ _ hfront

theorem process_corners_preserves_inv (inp : GroupInput) :
    ∀ (cs : List Corner) (st st' : GroupState) (fis : List Nat),
      StInv st → process_corners inp st cs = .ok (st', fis) → StInv st'
  | [], st, st', fis, hinv, h => by
    simp only [process_corners] at h
    cases h
    exact hinv
  | c :: rest, st, st', fis, hinv, h => by
    simp only [process_corners] at h
    cases hpc : process_corner inp st c with
    | error e => simp only [hpc] at h; exact Except.noConfusion h
    | ok p =>
      obtain ⟨st1, f_i⟩ := p
      simp only [hpc] at h
      have hinv1 := process_corner_preserves_inv inp st st1 c f_i hinv hpc
      cases hrest : process_corners inp st1 rest with
      | error e => simp only [hrest] at h; exact Except.noConfusion h
      | ok q =>
        obtain ⟨st2, f_is⟩ := q
        simp only [hrest] at h
        cases h
        exact process_corners_preserves_inv inp rest st1 st' f_is hinv1 hrest

theorem process_corners_map_length (inp : GroupInput) :
    ∀ (cs : List Corner) (st st' : GroupState) (fis : List Nat),
      StInv st → process_corners inp st cs = .ok (st', fis) →
      st'.vertex_map.length = st.vertex_map.length
  | [], st, st', fis, _, h => by
    simp only [process_corners] at h
    cases h
    rfl
  | c :: rest, st, st', fis, hinv, h => by
    simp only [process_corners] at h
    cases hpc : process_corner inp st c with
    | error e => simp only [hpc] at h; exact Except.noConfusion h
    | ok p =>
      obtain ⟨st1, f_i⟩ := p
      simp only [hpc] at h
      have hinv1 := process_corner_preserves_inv inp st st1 c f_i hinv hpc
      cases hrest : process_corners inp st1 rest with
      | error e => simp only [hrest] at h; exact Except.noConfusion h
      | ok q =>
        obtain ⟨st2, f_is⟩ := q
        simp only [hrest] at h
        cases h
        rw [process_corners_map_length inp rest st1 st' f_is hinv1 hrest,
          process_corner_map_length inp st st1 c f_i hinv hpc]

theorem corner_match_stable_run (inp : GroupInput) :
    ∀ (cs : List Corner) (st st' : GroupState) (fis : List Nat) (c : Corner) (i : Nat),
      StInv st → corner_match inp st c = some i →
      process_corners inp st cs = .ok (st', fis) → corner_match inp st' c = some i
  | [], st, st', fis, c, i, _, hm, h => by
    simp only [process_corners] at h
    cases h
    exact hm
  | c0 :: rest, st, st', fis, c, i, hinv, hm, h => by
    simp only [process_corners] at h
    cases hpc : process_corner inp st c0 with
    | error e => simp only [hpc] at h; exact Except.noConfusion h
    | ok p =>
      obtain ⟨st1, f_i⟩ := p
      simp only [hpc] at h
      have hinv1 := process_corner_preserves_inv inp st st1 c0 f_i hinv hpc
      have hm1 := corner_match_stable inp st st1 c c0 i f_i hinv hm hpc
      cases hrest : process_corners inp st1 rest with
      | error e => simp only [hrest] at h; exact Except.noConfusion h
      | ok q =>
        obtain ⟨st2, f_is⟩ := q
        simp only [hrest] at h
        cases h
        exact corner_match_stable_run inp rest st1 st' f_is c i hinv1 hm1 hrest

/-! ### Claim C1 -/

/-- C1, counterexample.  The claim demands that two corners with the same
source vertex whose present attributes agree within epsilon map to the same
WeldedVertex index.  Corners `c1B` (u = 2) and `c1C` (u = 1) share source
vertex 0 and agree within epsilon = 1 under the code's own comparator in both
orientations, yet the dedup loop on the corner sequence `[c1A, c1B, c1C]`
(with `c1A` at u = 0) assigns them the distinct welded indices 1 and 0:
`c1C` first-matches the earlier candidate `c1A` instead.  Epsilon-closeness
is not transitive, so the pairwise claim fails on the greedy first-match
dedup. -/
theorem c1_pairwise_counterexample :
    c1B.vertex_index = c1C.vertex_index
  ∧ is_new_face_corner_data c1_inp.epsilon c1B.quad c1C.quad = false
  ∧ is_new_face_corner_data c1_inp.epsilon c1C.quad c1B.quad = false
  ∧ (process_corners c1_inp (init_group_state 1) [c1A, c1B, c1C]).map
      (fun p => p.2) = Except.ok [0, 1, 0]
  ∧ (1 : Nat) ≠ 0 := by
  decide

/-- C1 (amended): each face corner is mapped to the *first* candidate in
insertion order among the welded vertices of its source vertex whose present
attributes all agree within epsilon, with the state unchanged; when every
existing candidate differs by more than epsilon in some present component
(and the capacity check passes), a new WeldedVertex is appended and
registered as a candidate; consequently two corners carrying *identical*
source vertex and attribute data anywhere in one run are always mapped to
the same WeldedVertex index (for a nonnegative epsilon).  The original
within-epsilon pairwise form is refuted by `c1_pairwise_counterexample`. -/
theorem c1_dedup_amended :
    (∀ (inp : GroupInput) (st : GroupState) (c : Corner) (js : List Nat) (j : Nat),
        st.vertex_map.getD c.vertex_index none = some js →
        js.find? (fun j' => ! is_new_face_corner_data inp.epsilon c.quad
          (st.vertquad_list.getD j' emptyVertQuad)) = some j →
        j < st.vertquad_list.length → j ≤ 65535 →
        process_corner inp st c = .ok (st, j))
  ∧ (∀ (inp : GroupInput) (st : GroupState) (c : Corner),
        (∀ j ∈ (st.vertex_map.getD c.vertex_index none).getD [],
          is_new_face_corner_data inp.epsilon c.quad
            (st.vertquad_list.getD j emptyVertQuad) = true) →
        st.vertquad_list.length ≤ 65535 →
        c.vertex_index < st.vertex_map.length →
        ∃ st', process_corner inp st c = .ok (st', st.vertquad_list.length) ∧
          st'.vertquad_list = st.vertquad_list ++ [c.quad] ∧
          st'.vertex_map.getD c.vertex_index none =
            some (((st.vertex_map.getD c.vertex_index none).getD []) ++
              [st.vertquad_list.length]))
  ∧ (∀ (inp : GroupInput) (pre mid : List Corner) (c : Corner)
        (st1 st2 st3 st4 : GroupState) (f1 f2 : List Nat) (i1 i2 : Nat),
        0 ≤ inp.epsilon → c.vertex_index < inp.num_vertices →
        process_corners inp (init_group_state inp.num_vertices) pre = .ok (st1, f1) →
        process_corner inp st1 c = .ok (st2, i1) →
        process_corners inp st2 mid = .ok (st3, f2) →
        process_corner inp st3 c = .ok (st4, i2) →
        i2 = i1) := by
  refine ⟨?_, ?_, ?_⟩
  · intro inp st c js j hmap hfind hlt hcap
    have hm : corner_match inp st c = some j := by
      unfold corner_match
      rw [hmap]
      simp only [Option.getD_some]
      exact hfind
    rw [process_corner_eq, hm]
    simp only [Option.getD_some]
    rw [if_neg (show ¬ 65535 < j by omega),
      if_neg (show ¬ j = st.vertquad_list.length by omega)]
  · intro inp st c hall hlen hvi
    have hm : corner_match inp st c = none := by
      unfold corner_match
      apply find?_eq_none_of_all
      intro j hj
      show (! is_new_face_corner_data inp.epsilon c.quad
        (st.vertquad_list.getD j emptyVertQuad)) = false
      rw [hall j hj]
      rfl
    refine ⟨append_state inp st c, process_corner_of_new inp st c hm hlen, rfl, ?_⟩
    simp only [append_state]
    rw [getD_set_self _ _ _ _ hvi]
  · intro inp pre mid c st1 st2 st3 st4 f1 f2 i1 i2 heps hvi hpre hc1 hmid hc2
    have hinv0 := stInv_init inp.num_vertices
    have hinv1 := process_corners_preserves_inv inp pre _ st1 f1 hinv0 hpre
    have hlen1 : st1.vertex_map.length = inp.num_vertices := by
      rw [process_corners_map_length inp pre _ st1 f1 hinv0 hpre]
      simp [init_group_state]
    have hinv2 := process_corner_preserves_inv inp st1 st2 c i1 hinv1 hc1
    have hm2 : corner_match inp st2 c = some i1 :=
      corner_match_after_self inp st1 st2 c i1 heps (by omega) hinv1 hc1
    have hinv3 := process_corners_preserves_inv inp mid st2 st3 f2 hinv2 hmid
    have hm3 : corner_match inp st3 c = some i1 :=
      corner_match_stable_run inp mid st2 st3 f2 c i1 hinv2 hm2 hmid
    have hfinal := process_corner_of_match inp st3 c i1 hinv3 hm3
    rw [hfinal] at hc2
    cases hc2
    rfl

/-- Witness for `c1_dedup_amended`: all three parts applied at the concrete
run of `c1A`, `c1B` over one source vertex. -/
theorem c1_dedup_amended_witness :
    process_corner c1_inp c1_stA c1A = .ok (c1_stA, 0)
  ∧ (∃ st', process_corner c1_inp c1_stA c1B = .ok (st', 1) ∧
      st'.vertquad_list = c1_stA.vertquad_list ++ [c1B.quad] ∧
      st'.vertex_map.getD 0 none = some [0, 1])
  ∧ (0 : Nat) = 0 := by
  refine ⟨?_, ?_, ?_⟩
  · exact c1_dedup_amended.1 c1_inp c1_stA c1A [0] 0 (by decide) (by decide)
      (by decide) (by decide)
  · obtain ⟨st', h1, h2, h3⟩ :=
      c1_dedup_amended.2.1 c1_inp c1_stA c1B (by decide) (by decide) (by decide)
    exact ⟨st', h1, h2, h3⟩
  · exact c1_dedup_amended.2.2 c1_inp [c1A] [c1B] c1A c1_stA c1_stA c1_stAB c1_stAB
      [0] [1] 0 0 (by decide) (by decide) (by decide) (by decide) (by decide) (by decide)

/-! ### Claim C2 -/

theorem process_corners_append (inp : GroupInput) (l1 l2 : List Corner) :
    ∀ st : GroupState, process_corners inp st (l1 ++ l2) =
      match process_corners inp st l1 with
      | .error e => .error e
      | .ok (st1, f1) =>
        match process_corners inp st1 l2 with
        | .error e => .error e
        | .ok (st2, f2) => .ok (st2, f1 ++ f2) := by
  induction l1 with
  | nil =>
    intro st
    simp only [List.nil_append, process_corners]
    cases hl2 : process_corners inp st l2 with
    | error e => rfl
    | ok p =>
      obtain ⟨st2, f2⟩ := p
      rfl
  | cons c rest ih =>
    intro st
    simp only [List.cons_append, process_corners]
    cases hpc : process_corner inp st c with
    | error e => rfl
    | ok p =>
      obtain ⟨st1, f_i⟩ := p
      simp only [List.append_eq]
      rw [ih st1]
      cases hr : process_corners inp st1 rest with
      | error e => rfl
      | ok q =>
        obtain ⟨st2, f2s⟩ := q
        simp only []
        cases hl2 : process_corners inp st2 l2 with
        | error e => rfl
        | ok r =>
          obtain ⟨st3, f3⟩ := r
          rfl

/-- The capacity run succeeds for any `n ≤ 65536` distinct source vertices,
producing exactly `n` welded vertices. -/
theorem c2_run (n : Nat) (hn : n ≤ 65536) :
    ∃ st : GroupState,
      process_corners c2_inp (init_group_state 65537) (distinct_corners n)
          = .ok (st, List.range n)
        ∧ st.vertquad_list.length = n
        ∧ ∀ k, n ≤ k → st.vertex_map.getD k none = none := by
  induction n with
  | zero =>
    refine ⟨init_group_state 65537, rfl, rfl, ?_⟩
    intro k hk
    exact getD_replicate_self _ _ _
  | succ n ih =>
    obtain ⟨st, hrun, hlen, hmap⟩ := ih (by omega)
    have hnone : st.vertex_map.getD n none = none := hmap n (le_refl n)
    have hm : corner_match c2_inp st (distinct_corner n) = none := by
      unfold corner_match
      rw [show (distinct_corner n).vertex_index = n from rfl, hnone]
      rfl
    have hstep := process_corner_of_new c2_inp st (distinct_corner n) hm (by omega)
    have hsplit : distinct_corners (n + 1) = distinct_corners n ++ [distinct_corner n] := by
      unfold distinct_corners
      rw [List.range_succ, List.map_append]
      rfl
    refine ⟨append_state c2_inp st (distinct_corner n), ?_, ?_, ?_⟩
    · rw [hsplit, process_corners_append, hrun]
      simp only [process_corners, hstep, hlen]
      rw [List.range_succ]
    · simp only [append_state, List.length_append, List.length_cons, List.length_nil]
      omega
    · intro k hk
      simp only [append_state]
      rw [show (distinct_corner n).vertex_index = n from rfl]
      rw [getD_set_ne _ _ _ _ _ (by omega)]
      exact hmap k (by omega)

/-- C2, code-bug demonstration.  The source checks `f_index[i] > 65535`
*before* appending, so a material group whose corners carry 65536 pairwise
distinct source vertices is deduplicated without any error into 65536
WeldedVertex entries — one more than the claimed 65535 ceiling — and the
`Too many vertices` error fires only when the 65537th entry would be
created. -/
theorem c2_vertex_capacity_off_by_one :
    (∃ st : GroupState,
        process_corners c2_inp (init_group_state 65537) (distinct_corners 65536)
            = .ok (st, List.range 65536)
          ∧ st.vertquad_list.length = 65536)
  ∧ process_corners c2_inp (init_group_state 65537) (distinct_corners 65537)
      = .error .tooManyVertices := by
  obtain ⟨st, h1, h2, hmap⟩ := c2_run 65536 (le_refl _)
  constructor
  · exact ⟨st, h1, h2⟩
  · have hm : corner_match c2_inp st (distinct_corner 65536) = none := by
      unfold corner_match
      rw [show (distinct_corner 65536).vertex_index = 65536 from rfl,
        hmap 65536 (le_refl _)]
      rfl
    have hsplit : distinct_corners 65537
        = distinct_corners 65536 ++ [distinct_corner 65536] := by
      unfold distinct_corners
      rw [show (65537 : Nat) = 65536 + 1 from rfl, List.range_succ, List.map_append]
      rfl
    have hcap : 65535 < st.vertquad_list.length := by omega
    have herr : process_corner c2_inp st (distinct_corner 65536)
        = .error .tooManyVertices := by
      rw [process_corner_eq, hm]
      simp only [Option.getD_none]
      rw [if_pos hcap]
    rw [hsplit, process_corners_append, h1]
    simp only [process_corners, herr]

/-! ### Claim C4 -/

theorem process_corner_triangles (inp : GroupInput) (st st' : GroupState) (c : Corner)
    (i : Nat) (h : process_corner inp st c = .ok (st', i)) : st'.triangles = st.triangles := by
  rw [process_corner_eq] at h
  by_cases h1 : 65535 < (corner_match inp st c).getD st.vertquad_list.length
  · rw [if_pos h1] at h
    exact Except.noConfusion h
  · rw [if_neg h1] at h
    by_cases h2 : (corner_match inp st c).getD st.vertquad_list.length
        = st.vertquad_list.length
    · rw [if_pos h2] at h
      cases h
      rfl
    · rw [if_neg h2] at h
      cases h
      rfl

theorem process_corners_triangles (inp : GroupInput) :
    ∀ (cs : List Corner) (st st' : GroupState) (fis : List Nat),
      process_corners inp st cs = .ok (st', fis) → st'.triangles = st.triangles
  | [], st, st', fis, h => by
    simp only [process_corners] at h
    cases h
    rfl
  | c :: rest, st, st', fis, h => by
    simp only [process_corners] at h
    cases hpc : process_corner inp st c with
    | error e => simp only [hpc] at h; exact Except.noConfusion h
    | ok p =>
      obtain ⟨st1, f_i⟩ := p
      simp only [hpc] at h
      cases hrest : process_corners inp st1 rest with
      | error e => simp only [hrest] at h; exact Except.noConfusion h
      | ok q =>
        obtain ⟨st2, f_is⟩ := q
        simp only [hrest] at h
        cases h
        rw [process_corners_triangles inp rest st1 st' f_is hrest,
          process_corner_triangles inp st st1 c f_i hpc]

/-- C4: a polygon of `N ∈ {3, 4}` corners whose dedup produced the index list
`fis` appends exactly the fanned triangles `(fis[0], fis[1+i], fis[2+i])` for
`i < N - 2`; a positive scale sum keeps that winding and a negative scale sum
swaps the last two indices; in particular a quad `[0,1,2,3]` fans to
`[(0,1,2),(0,2,3)]` under positive scale and `[(0,2,1),(0,3,2)]` under
negative scale. -/
theorem c4_triangulation (inp : GroupInput) (st st1 st' : GroupState) (poly : Polygon)
    (fis : List Nat)
    (hmat : ¬(inp.b_mat_some = true ∧ poly.material_index ≠ inp.b_mat_index))
    (hn : poly.corners.length = 3 ∨ poly.corners.length = 4)
    (hc : process_corners inp st poly.corners = .ok (st1, fis))
    (hrun : process_poly inp st poly = .ok st') :
    (st'.triangles = st.triangles
        ++ fan_triangles inp.scale_sum fis poly.corners.length)
  ∧ (0 < inp.scale_sum →
      fan_triangles inp.scale_sum fis poly.corners.length
        = (List.range (poly.corners.length - 2)).map
            (fun i => (fis.getD 0 0, fis.getD (1 + i) 0, fis.getD (2 + i) 0)))
  ∧ (inp.scale_sum < 0 →
      fan_triangles inp.scale_sum fis poly.corners.length
        = (List.range (poly.corners.length - 2)).map
            (fun i => (fis.getD 0 0, fis.getD (2 + i) 0, fis.getD (1 + i) 0)))
  ∧ fan_triangles 3 [0, 1, 2, 3] 4 = [(0, 1, 2), (0, 2, 3)]
  ∧ fan_triangles (-3) [0, 1, 2, 3] 4 = [(0, 2, 1), (0, 3, 2)] := by
  refine ⟨?_, ?_, ?_, by decide, by decide⟩
  · unfold process_poly at hrun
    rw [if_neg hmat] at hrun
    have h3 : ¬ poly.corners.length < 3 := by
      rcases hn with h | h <;> omega
    rw [if_neg h3] at hrun
    simp only [hc] at hrun
    cases hrun
    simp only []
    rw [process_corners_triangles inp poly.corners st st1 fis hc]
  · intro h
    simp [fan_triangles, h]
  · intro h
    have h' : ¬ 0 < inp.scale_sum := not_lt.mpr (le_of_lt h)
    simp [fan_triangles, h']

/-- Witness for `c4_triangulation` at the concrete quad run. -/
theorem c4_triangulation_witness :
    c4_stF.triangles = (init_group_state 4).triangles
        ++ fan_triangles c4_inp.scale_sum [0, 1, 2, 3] 4
  ∧ fan_triangles 3 [0, 1, 2, 3] 4 = [(0, 1, 2), (0, 2, 3)]
  ∧ fan_triangles (-3) [0, 1, 2, 3] 4 = [(0, 2, 1), (0, 3, 2)] := by
  have h := c4_triangulation c4_inp (init_group_state 4) c4_st1 c4_stF c4_poly [0, 1, 2, 3]
    (by decide) (by decide) (by decide) (by decide)
  exact ⟨h.1, h.2.2.2.1, h.2.2.2.2⟩

/-! ### Claims C7, C9, C10 -/

theorem getD_map_range {α : Type} (f : Nat → α) (n j : Nat) (d : α) (h : j < n) :
    ((List.range n).map f).getD j d = f j := by
  rw [List.getD_eq_getElem?_getD, List.getElem?_map, List.getElem?_range h]
  rfl

/-- C7: once the polygon loop has finished with no unassigned body parts (and
the multi-uv check passed), the export raises `Too many polygons` exactly when
more than 65535 triangles were fanned — before any geometry data is produced —
and otherwise writes at most 65535 triangles. -/
theorem c7_triangle_capacity (inp : GroupInput) (st : GroupState)
    (hUV : ¬((inp.game = Game.fallout3 ∨ inp.game = Game.skyrim) ∧ 1 < inp.uv_layer_count))
    (hrun : process_polys inp (init_group_state inp.num_vertices) inp.polygons = .ok st)
    (hbp : st.polygons_without_bodypart = []) :
    (65535 < st.triangles.length → export_material_group inp = .error .tooManyPolygons)
  ∧ (st.triangles.length ≤ 65535 →
      ∀ out, export_material_group inp = .ok (some out) →
        out.out_triangles = st.triangles ∧ out.out_triangles.length ≤ 65535) := by
  unfold export_material_group
  rw [if_neg hUV]
  simp only [hrun]
  rw [if_neg (show ¬ st.polygons_without_bodypart ≠ [] from fun hc => hc hbp)]
  constructor
  · intro h
    rw [if_pos h]
  · intro h out hout
    rw [if_neg (not_lt.mpr h)] at hout
    by_cases hv : st.vertex_positions.length = 0
    · rw [if_pos hv] at hout
      exact absurd (Except.ok.inj hout) (fun hc => Option.noConfusion hc)
    · rw [if_neg hv] at hout
      cases hout
      exact ⟨rfl, h⟩

/-- Witness for `c7_triangle_capacity`: one triangle, far below the cap. -/
theorem c7_triangle_capacity_witness :
    c7_st.triangles.length ≤ 65535
  ∧ ∀ out, export_material_group c7_inp = .ok (some out) →
      out.out_triangles = c7_st.triangles ∧ out.out_triangles.length ≤ 65535 := by
  refine ⟨by decide, ?_⟩
  exact (c7_triangle_capacity c7_inp c7_st (by decide) (by decide) (by decide)).2 (by decide)

/-- C9: every uv coordinate written to the output block keeps `u` and flips
`v` to `1 - v`. -/
theorem c9_uv_flip (uv_coords : List (List (ℚ × ℚ))) (num_uv_sets num_vertices i j : Nat)
    (hi : i < num_vertices) (hj : j < num_uv_sets)
    (hrow : uv_coords.getD i [] ≠ []) :
    ((set_geom_data_uvs uv_coords num_uv_sets num_vertices).getD j []).getD i (0, 0)
      = (((uv_coords.getD i []).getD j (0, 0)).1,
          1 - ((uv_coords.getD i []).getD j (0, 0)).2) := by
  unfold set_geom_data_uvs
  rw [getD_map_range _ _ _ _ hj, getD_map_range _ _ _ _ hi]
  have hne : ¬ (uv_coords.getD i []).length = 0 := by
    intro h0
    exact hrow (List.length_eq_zero.mp h0)
  rw [if_neg hne]

/-- Witness for `c9_uv_flip`: a source `v = 1/5` is emitted as `4/5` with `u`
unchanged. -/
theorem c9_uv_flip_witness :
    ((set_geom_data_uvs [[(3/10, 1/5)]] 1 1).getD 0 []).getD 0 (0, 0) = (3/10, 4/5) := by
  have h := c9_uv_flip [[(3/10, 1/5)]] 1 1 0 0 (by decide) (by decide) (by decide)
  exact h.trans (by decide)

/-- C10: for Fallout 3 / Skyrim with more than one uv layer the export fails
with the multi-uv error before the polygon loop, so no geometry output of any
kind is produced for the mesh. -/
theorem c10_fo3_skyrim_multi_uv (inp : GroupInput)
    (hgame : inp.game = Game.fallout3 ∨ inp.game = Game.skyrim)
    (huv : 1 < inp.uv_layer_count) :
    export_material_group inp = .error .multipleUVLayers
  ∧ ∀ out, export_material_group inp ≠ .ok out := by
  have h : export_material_group inp = .error .multipleUVLayers := by
    unfold export_material_group
    rw [if_pos ⟨hgame, huv⟩]
  refine ⟨h, fun out hc => ?_⟩
  rw [h] at hc
  exact Except.noConfusion hc

/-- Witness for `c10_fo3_skyrim_multi_uv` at a concrete Fallout 3 input. -/
theorem c10_fo3_skyrim_multi_uv_witness :
    export_material_group c10_inp = .error .multipleUVLayers := by
  exact (c10_fo3_skyrim_multi_uv c10_inp (Or.inl rfl) (by decide)).1

/-! ### Claims C3 and C5: skin weight lemmas -/

theorem map_congr_mem {α β : Type} (l : List α) (f g : α → β)
    (h : ∀ a ∈ l, f a = g a) : l.map f = l.map g := by
  induction l with
  | nil => rfl
  | cons a t ih =>
    rw [List.map_cons, List.map_cons, h a (List.mem_cons_self a t),
      ih (fun x hx => h x (List.mem_cons_of_mem a hx))]

theorem b_entry_key (g : Nat) (v : BVert) (e : Nat × ℚ) (h : b_entry g v = some e) :
    e.1 = v.index := by
  unfold b_entry at h
  by_cases hg : v.groups = []
  · rw [if_pos hg] at h
    exact Option.noConfusion h
  · rw [if_neg hg] at h
    cases hfind : v.groups.find? (fun gr => decide (gr.group = g)) with
    | none =>
      rw [hfind] at h
      exact Option.noConfusion h
    | some gr =>
      rw [hfind] at h
      simp only [Option.map_some'] at h
      rw [← Option.some.inj h]

theorem vert_norm_foldl_getD (l : List (Nat × ℚ)) :
    ∀ (m : Nat → Option ℚ) (k : Nat),
      ((l.foldl vert_norm_update m) k).getD 0
        = (m k).getD 0 + ((l.filter (fun p => decide (p.1 = k))).map Prod.snd).sum := by
  induction l with
  | nil =>
    intro m k
    simp
  | cons p rest ih =>
    intro m k
    rw [List.foldl_cons, ih]
    by_cases hp : p.1 = k
    · have hupdate : (vert_norm_update m p) k = some ((m k).getD 0 + p.2) := by
        unfold vert_norm_update
        rw [if_pos hp.symm, hp]
      rw [hupdate, List.filter_cons_of_pos (by simpa using hp)]
      simp [add_assoc]
    · have hupdate : (vert_norm_update m p) k = m k := by
        unfold vert_norm_update
        rw [if_neg (fun hc => hp hc.symm)]
      rw [hupdate, List.filter_cons_of_neg (by simpa using hp)]

theorem vert_norm_foldl_bones (vg_index_of : String → Nat) (verts : List BVert) :
    ∀ (bones : List String) (m : Nat → Option ℚ) (k : Nat),
      ((bones.foldl
          (fun m b => (b_list_weight (vg_index_of b) verts).foldl vert_norm_update m) m) k).getD 0
        = (m k).getD 0 + (bones.map (fun b =>
            (((b_list_weight (vg_index_of b) verts).filter
              (fun p => decide (p.1 = k))).map Prod.snd).sum)).sum
  | [], m, k => by simp
  | b :: rest, m, k => by
    rw [List.foldl_cons, vert_norm_foldl_bones vg_index_of verts rest _ k,
      vert_norm_foldl_getD]
    simp [add_assoc]

/-- The `vert_norm` value of a vertex is the sum, over the influencing bones,
of the raw weights its entries contribute. -/
theorem vert_norm_getD (boneinfluences : List String) (vg_index_of : String → Nat)
    (verts : List BVert) (k : Nat) :
    ((vert_norm boneinfluences vg_index_of verts) k).getD 0
      = (boneinfluences.map (fun b =>
          (((b_list_weight (vg_index_of b) verts).filter
            (fun p => decide (p.1 = k))).map Prod.snd).sum)).sum := by
  unfold vert_norm
  rw [vert_norm_foldl_bones]
  simp

theorem b_list_weight_key_absent (g : Nat) :
    ∀ (verts : List BVert) (vi : Nat), vi ∉ verts.map BVert.index →
      ((b_list_weight g verts).filter (fun p => decide (p.1 = vi)) = []
        ∧ (b_list_weight g verts).find? (fun p => decide (p.1 = vi)) = none)
  | [], vi, _ => ⟨rfl, rfl⟩
  | v :: rest, vi, h => by
    simp only [List.map_cons, List.mem_cons, not_or] at h
    obtain ⟨h1, h2⟩ := h
    have ih := b_list_weight_key_absent g rest vi h2
    unfold b_list_weight at ih ⊢
    rw [List.filterMap_cons]
    cases hf : b_entry g v with
    | none => exact ih
    | some e =>
      have hkey : (decide (e.1 = vi)) = false := by
        rw [b_entry_key g v e hf]
        simpa using fun hc => h1 hc.symm
      constructor
      · rw [List.filter_cons_of_neg (by simp [hkey])]
        exact ih.1
      · rw [List.find?_cons_of_neg _ (by simp [hkey])]
        exact ih.2

theorem b_list_weight_cons_none (g : Nat) (v : BVert) (rest : List BVert)
    (h : b_entry g v = none) : b_list_weight g (v :: rest) = b_list_weight g rest := by
  unfold b_list_weight
  rw [List.filterMap_cons, h]

theorem b_list_weight_cons_some (g : Nat) (v : BVert) (rest : List BVert) (e : Nat × ℚ)
    (h : b_entry g v = some e) : b_list_weight g (v :: rest) = e :: b_list_weight g rest := by
  unfold b_list_weight
  rw [List.filterMap_cons, h]

theorem b_list_weight_filter_sum (g : Nat) :
    ∀ (verts : List BVert), (verts.map BVert.index).Nodup →
      ∀ vi : Nat,
        (((b_list_weight g verts).filter (fun p => decide (p.1 = vi))).map Prod.snd).sum
          = (raw_weight g verts vi).getD 0
  | [], _, vi => by
    simp [b_list_weight, raw_weight]
  | v :: rest, hnodup, vi => by
    simp only [List.map_cons, List.nodup_cons] at hnodup
    obtain ⟨hv, hrest⟩ := hnodup
    have ih := b_list_weight_filter_sum g rest hrest vi
    unfold raw_weight at ih ⊢
    cases hf : b_entry g v with
    | none =>
      rw [b_list_weight_cons_none g v rest hf]
      exact ih
    | some e =>
      rw [b_list_weight_cons_some g v rest e hf]
      by_cases hkey : e.1 = vi
      · have habsent := b_list_weight_key_absent g rest vi
          (by rw [← hkey, b_entry_key g v e hf]; exact hv)
        rw [List.filter_cons_of_pos (by simpa using hkey), habsent.1,
          List.find?_cons_of_pos _ (by simpa using hkey)]
        simp
      · rw [List.filter_cons_of_neg (by simpa using hkey),
          List.find?_cons_of_neg _ (by simpa using hkey)]
        exact ih

theorem b_list_weight_key_mem (g : Nat) :
    ∀ (verts : List BVert) (p : Nat × ℚ), p ∈ b_list_weight g verts →
      p.1 ∈ verts.map BVert.index
  | [], p, h => absurd h (List.not_mem_nil p)
  | v :: rest, p, h => by
    unfold b_list_weight at h
    rw [List.filterMap_cons] at h
    simp only [List.map_cons, List.mem_cons]
    cases hf : b_entry g v with
    | none =>
      rw [hf] at h
      exact Or.inr (b_list_weight_key_mem g rest p h)
    | some e =>
      rw [hf] at h
      rcases List.mem_cons.mp h with rfl | hmem
      · exact Or.inl (b_entry_key g v p hf)
      · exact Or.inr (b_list_weight_key_mem g rest p hmem)

theorem b_list_weight_find_of_mem (g : Nat) :
    ∀ (verts : List BVert), (verts.map BVert.index).Nodup →
      ∀ (p : Nat × ℚ), p ∈ b_list_weight g verts →
        (b_list_weight g verts).find? (fun q => decide (q.1 = p.1)) = some p
  | [], _, p, h => absurd h (List.not_mem_nil p)
  | v :: rest, hnodup, p, h => by
    simp only [List.map_cons, List.nodup_cons] at hnodup
    obtain ⟨hv, hrest⟩ := hnodup
    unfold b_list_weight at h ⊢
    rw [List.filterMap_cons] at h ⊢
    cases hf : b_entry g v with
    | none =>
      rw [hf] at h
      exact b_list_weight_find_of_mem g rest hrest p h
    | some e =>
      rw [hf] at h
      rcases List.mem_cons.mp h with rfl | hmem
      · exact List.find?_cons_of_pos _ (by simp)
      · have hne : e.1 ≠ p.1 := by
          rw [b_entry_key g v e hf]
          intro hc
          exact hv (hc ▸ b_list_weight_key_mem g rest p hmem)
        rw [List.find?_cons_of_neg _ (by simpa using hne)]
        exact b_list_weight_find_of_mem g rest hrest p hmem

/-- Membership in one bone's `vert_weights`: the pair `(w, q)` is assigned to
welded copy `w` of source vertex `vi` exactly when the bone has an entry for
`vi`, the norm is nonzero, and `q` is that raw weight divided by the norm. -/
theorem bone_vert_weights_mem_iff (g : Nat) (verts : List BVert)
    (vertex_map : List (Option (List Nat))) (norm : Nat → Option ℚ) (vi w : Nat) (q : ℚ)
    (hnodup : (verts.map BVert.index).Nodup)
    (hw : w ∈ (vertex_map.getD vi none).getD [])
    (hdisj : ∀ vi', w ∈ (vertex_map.getD vi' none).getD [] → vi' = vi) :
    ((w, q) ∈ bone_vert_weights g verts vertex_map norm ↔
      ((norm vi).getD 0 ≠ 0 ∧
        ∃ r, raw_weight g verts vi = some r ∧ q = r / (norm vi).getD 0)) := by
  unfold bone_vert_weights
  rw [List.mem_flatMap]
  constructor
  · rintro ⟨p, hp, hmem⟩
    by_cases hguard : (vertex_map.getD p.1 none).getD [] ≠ [] ∧ (norm p.1).getD 0 ≠ 0
    · rw [if_pos hguard] at hmem
      rw [List.mem_map] at hmem
      obtain ⟨w0, hw0, heq⟩ := hmem
      have hww : w0 = w := congrArg Prod.fst heq
      subst hww
      have hqq : q = p.2 / (norm p.1).getD 0 := (congrArg Prod.snd heq).symm
      have hp1 : p.1 = vi := hdisj p.1 hw0
      rw [hp1] at hguard hqq
      refine ⟨hguard.2, p.2, ?_, hqq⟩
      unfold raw_weight
      rw [show (fun q' : Nat × ℚ => decide (q'.1 = vi))
          = (fun q' : Nat × ℚ => decide (q'.1 = p.1)) from by rw [hp1],
        b_list_weight_find_of_mem g verts hnodup p hp]
      rfl
    · rw [if_neg hguard] at hmem
      exact absurd hmem (List.not_mem_nil _)
  · rintro ⟨hnz, r, hraw, hqeq⟩
    unfold raw_weight at hraw
    cases hfind : (b_list_weight g verts).find? (fun q' => decide (q'.1 = vi)) with
    | none =>
      rw [hfind] at hraw
      exact absurd hraw (by simp)
    | some p =>
      rw [hfind] at hraw
      have hp2 : p.2 = r := by simpa using hraw
      have hp1 : p.1 = vi := by
        have := List.find?_some hfind
        simpa using this
      refine ⟨p, List.mem_of_find?_eq_some hfind, ?_⟩
      have hcond : (vertex_map.getD p.1 none).getD [] ≠ [] ∧ (norm p.1).getD 0 ≠ 0 := by
        constructor
        · rw [hp1]
          exact List.ne_nil_of_mem hw
        · rw [hp1]
          exact hnz
      rw [if_pos hcond, List.mem_map]
      refine ⟨w, by rw [hp1]; exact hw, ?_⟩
      subst hqeq
      simp [hp1, hp2]

/-- C3: for a source vertex `vi` with a nonzero raw-weight sum and at least
one welded copy, (a) each bone's emitted weight for every welded copy of `vi`
is exactly its raw weight divided by the vertex's raw-weight sum, (b) the
emitted normalized weights across all influencing bones sum to 1, and
(c) any two welded copies of `vi` receive exactly the same per-bone weight
assignments. -/
theorem c3_weight_normalization (boneinfluences : List String)
    (vg_index_of : String → Nat) (verts : List BVert)
    (vertex_map : List (Option (List Nat))) (vi w : Nat)
    (hnodup : (verts.map BVert.index).Nodup)
    (hw : w ∈ (vertex_map.getD vi none).getD [])
    (hdisj : ∀ vi', w ∈ (vertex_map.getD vi' none).getD [] → vi' = vi)
    (hnz : ((vert_norm boneinfluences vg_index_of verts) vi).getD 0 ≠ 0) :
    (∀ b q, ((w, q) ∈ bone_vert_weights (vg_index_of b) verts vertex_map
          (vert_norm boneinfluences vg_index_of verts) ↔
        ∃ r, raw_weight (vg_index_of b) verts vi = some r ∧
          q = r / ((vert_norm boneinfluences vg_index_of verts) vi).getD 0))
  ∧ (boneinfluences.map (fun b => (raw_weight (vg_index_of b) verts vi).getD 0
        / ((vert_norm boneinfluences vg_index_of verts) vi).getD 0)).sum = 1
  ∧ (∀ w', w' ∈ (vertex_map.getD vi none).getD [] →
      (∀ vi', w' ∈ (vertex_map.getD vi' none).getD [] → vi' = vi) →
      ∀ b q, (((w, q) ∈ bone_vert_weights (vg_index_of b) verts vertex_map
            (vert_norm boneinfluences vg_index_of verts)) ↔
          ((w', q) ∈ bone_vert_weights (vg_index_of b) verts vertex_map
            (vert_norm boneinfluences vg_index_of verts)))) := by
  refine ⟨?_, ?_, ?_⟩
  · intro b q
    rw [bone_vert_weights_mem_iff (vg_index_of b) verts vertex_map _ vi w q hnodup hw hdisj]
    exact ⟨fun h => h.2, fun h => ⟨hnz, h⟩⟩
  · have hsum : ((vert_norm boneinfluences vg_index_of verts) vi).getD 0
        = (boneinfluences.map
            (fun b => (raw_weight (vg_index_of b) verts vi).getD 0)).sum := by
      rw [vert_norm_getD]
      exact congrArg List.sum (map_congr_mem _ _ _
        (fun b _ => b_list_weight_filter_sum (vg_index_of b) verts hnodup vi))
    rw [sum_map_div, ← hsum, div_self hnz]
  · intro w' hw' hdisj' b q
    rw [bone_vert_weights_mem_iff (vg_index_of b) verts vertex_map _ vi w q hnodup hw hdisj,
      bone_vert_weights_mem_iff (vg_index_of b) verts vertex_map _ vi w' q hnodup hw' hdisj']

/-- Witness for `c3_weight_normalization`: raw weights 1/4 and 3/4 on two
bones sum to 1 after normalization, and both welded copies receive the same
per-bone assignments. -/
theorem c3_weight_normalization_witness :
    (c3_bones.map (fun b => (raw_weight (c3_vg b) c3_verts 0).getD 0
        / ((vert_norm c3_bones c3_vg c3_verts) 0).getD 0)).sum = 1
  ∧ ∀ b q, (((0 : Nat), q) ∈ bone_vert_weights (c3_vg b) c3_verts c3_vmap
        (vert_norm c3_bones c3_vg c3_verts) ↔
      ((1 : Nat), q) ∈ bone_vert_weights (c3_vg b) c3_verts c3_vmap
        (vert_norm c3_bones c3_vg c3_verts)) := by
  have hdisj0 : ∀ vi', (0 : Nat) ∈ (c3_vmap.getD vi' none).getD [] → vi' = 0 := by
    intro vi' h
    match vi' with
    | 0 => rfl
    | n + 1 =>
      rw [show c3_vmap.getD (n + 1) none = none from rfl] at h
      exact absurd h (List.not_mem_nil 0)
  have hdisj1 : ∀ vi', (1 : Nat) ∈ (c3_vmap.getD vi' none).getD [] → vi' = 0 := by
    intro vi' h
    match vi' with
    | 0 => rfl
    | n + 1 =>
      rw [show c3_vmap.getD (n + 1) none = none from rfl] at h
      exact absurd h (List.not_mem_nil 1)
  have h := c3_weight_normalization c3_bones c3_vg c3_verts c3_vmap 0 0
    (by decide) (by decide) hdisj0 (by decide)
  exact ⟨h.2.1, fun b q => h.2.2 1 (by decide) hdisj1 b q⟩

/-- C5, counterexample.  The claim says a vertex with a zero raw bone-weight
sum, or belonging to no recognized bone group, is collected into the
unweighted set.  A vertex whose only group entry is a *bone* group with raw
weight 0 has a zero raw-weight sum, and a vertex whose only group is not a
bone's vertex group belongs to no recognized bone group; neither is collected
(the code only collects vertices with an *empty* group list, lines 372-373),
and no `UnweightedVertex` error is raised for them. -/
theorem c5_unweighted_counterexample :
    ((vert_norm ["Bone"] (fun _ => 0) [⟨0, [⟨0, 0⟩]⟩]) 0).getD 0 = 0
  ∧ collect_unweighted ["Bone"] [⟨0, [⟨0, 0⟩]⟩] = []
  ∧ select_unweighted_vertices (collect_unweighted ["Bone"] [⟨0, [⟨0, 0⟩]⟩]) = .ok ()
  ∧ collect_unweighted ["Bone"] [⟨0, [⟨5, 1⟩]⟩] = []
  ∧ select_unweighted_vertices (collect_unweighted ["Bone"] [⟨0, [⟨5, 1⟩]⟩]) = .ok () := by
  decide

/-- C5 (amended): the unweighted-vertex collection contains exactly the
vertices whose vertex-group list is empty (each appended once per influencing
bone); `select_unweighted_vertices` raises the fatal `UnweightedVertex` error
precisely when that collection is nonempty; and a vertex whose raw bone-weight
sum is zero (but which belongs to some group) is *not* collected — the export
proceeds, emitting no weight assignments for its welded copies. -/
theorem c5_unweighted_amended :
    (∀ (boneinfluences : List String) (verts : List BVert) (vi : Nat),
        vi ∈ collect_unweighted boneinfluences verts ↔
          (boneinfluences ≠ [] ∧ ∃ v ∈ verts, v.index = vi ∧ v.groups = []))
  ∧ (∀ unweighted_vertices : List Nat,
        (select_unweighted_vertices unweighted_vertices = .error .unweightedVertex ↔
          unweighted_vertices ≠ []))
  ∧ (∀ (g : Nat) (verts : List BVert) (vertex_map : List (Option (List Nat)))
        (norm : Nat → Option ℚ) (vi w : Nat) (q : ℚ),
        w ∈ (vertex_map.getD vi none).getD [] →
        (∀ vi', w ∈ (vertex_map.getD vi' none).getD [] → vi' = vi) →
        (norm vi).getD 0 = 0 →
        (w, q) ∉ bone_vert_weights g verts vertex_map norm) := by
  refine ⟨?_, ?_, ?_⟩
  · intro boneinfluences verts vi
    unfold collect_unweighted
    rw [List.mem_flatMap]
    constructor
    · rintro ⟨b, hb, hmem⟩
      refine ⟨List.ne_nil_of_mem hb, ?_⟩
      rw [List.mem_filterMap] at hmem
      obtain ⟨v, hv, heq⟩ := hmem
      by_cases hg : v.groups = []
      · rw [if_pos hg] at heq
        exact ⟨v, hv, Option.some.inj heq, hg⟩
      · rw [if_neg hg] at heq
        exact Option.noConfusion heq
    · rintro ⟨hne, v, hv, hidx, hgroups⟩
      obtain ⟨b, hb⟩ := List.exists_mem_of_ne_nil boneinfluences hne
      refine ⟨b, hb, ?_⟩
      rw [List.mem_filterMap]
      exact ⟨v, hv, by rw [if_pos hgroups, hidx]⟩
  · intro l
    cases l with
    | nil => simp [select_unweighted_vertices]
    | cons a t => simp [select_unweighted_vertices]
  · intro g verts vertex_map norm vi w q hw hdisj hzero hmem
    unfold bone_vert_weights at hmem
    rw [List.mem_flatMap] at hmem
    obtain ⟨p, hp, hm⟩ := hmem
    by_cases hguard : (vertex_map.getD p.1 none).getD [] ≠ [] ∧ (norm p.1).getD 0 ≠ 0
    · rw [if_pos hguard] at hm
      rw [List.mem_map] at hm
      obtain ⟨w0, hw0, heq⟩ := hm
      have hww : w0 = w := congrArg Prod.fst heq
      subst hww
      have hp1 : p.1 = vi := hdisj p.1 hw0
      rw [hp1] at hguard
      exact hguard.2 hzero
    · rw [if_neg hguard] at hm
      exact absurd hm (List.not_mem_nil _)

/-- Witness for `c5_unweighted_amended` at concrete inputs: the membership
characterization at a group-less vertex, the raise condition on a singleton
list, and the absence of any emitted weight for the zero-sum vertex of the
counterexample. -/
theorem c5_unweighted_amended_witness :
    ((0 : Nat) ∈ collect_unweighted ["Bone"] [⟨0, []⟩] ↔
      ((["Bone"] : List String) ≠ [] ∧
        ∃ v ∈ [(⟨0, []⟩ : BVert)], v.index = 0 ∧ v.groups = []))
  ∧ (select_unweighted_vertices [0] = .error .unweightedVertex ↔ ([0] : List Nat) ≠ [])
  ∧ ∀ q : ℚ, ((0 : Nat), q) ∉ bone_vert_weights 0 [⟨0, [⟨0, 0⟩]⟩] [some [0]]
      (vert_norm ["Bone"] (fun _ => 0) [⟨0, [⟨0, 0⟩]⟩]) := by
  refine ⟨c5_unweighted_amended.1 ["Bone"] [⟨0, []⟩] 0,
    c5_unweighted_amended.2.1 [0], ?_⟩
  intro q
  refine c5_unweighted_amended.2.2 0 [⟨0, [⟨0, 0⟩]⟩] [some [0]]
    (vert_norm ["Bone"] (fun _ => 0) [⟨0, [⟨0, 0⟩]⟩]) 0 0 q (by decide) ?_ (by decide)
  intro vi' h
  match vi' with
  | 0 => rfl
  | n + 1 =>
    rw [show ([some [0]] : List (Option (List Nat))).getD (n + 1) none = none from rfl] at h
    exact absurd h (List.not_mem_nil 0)

/-! ### Claims C6 and C8 -/

/-- The bone-sampling loop in specification form: every transform is sampled
in the state the loop was entered with, which it never changes. -/
theorem run_bone_samples_eq {α : Type} :
    ∀ (samples : List (PosePosition → Option α)) (s : PosePosition),
      run_bone_samples samples s =
        match sample_all samples s with
        | some vs => .ok (vs, s)
        | none => .error (.boneNotFound, s)
  | [], s => rfl
  | f :: rest, s => by
    simp only [run_bone_samples, sample_all]
    cases hf : f s with
    | none => rfl
    | some a =>
      rw [run_bone_samples_eq rest s]
      cases hr : sample_all rest s with
      | none => rfl
      | some vs => rfl

/-- C6, counterexample.  The claim says bone transforms are sampled with the
armature forced into its *rest* pose and that the prior pose-position is
restored on *every* exit path.  In the code (lines 539-553) the armature is
forced into `'POSE'`, not `'REST'`: a sample that records the state it is
read in observes `pose` while the prior state was `rest`.  And there is no
`try/finally`: when a bone lookup raises, the exception escapes with the
armature still in `pose` position instead of the prior `rest`. -/
theorem c6_pose_position_counterexample :
    update_bind_position PosePosition.rest [fun s => some s]
        = .ok ([PosePosition.pose], PosePosition.rest)
  ∧ update_bind_position PosePosition.rest [fun _ => (none : Option PosePosition)]
      = .error (.boneNotFound, PosePosition.pose)
  ∧ PosePosition.pose ≠ PosePosition.rest := by
  refine ⟨rfl, rfl, by decide⟩

/-- C6 (amended): during bind-pose computation the per-bone transforms are
sampled with the armature forced into *pose* position; on the normal exit
path the prior pose-position value is restored, but an error during bone
sampling propagates with the armature left in pose position. -/
theorem c6_pose_position_amended (s0 : PosePosition) {α : Type}
    (samples : List (PosePosition → Option α)) :
    (∀ vs sF, update_bind_position s0 samples = .ok (vs, sF) →
        sF = s0 ∧ sample_all samples PosePosition.pose = some vs)
  ∧ (∀ e sF, update_bind_position s0 samples = .error (e, sF) →
        sF = PosePosition.pose) := by
  unfold update_bind_position
  rw [run_bone_samples_eq]
  cases hs : sample_all samples PosePosition.pose with
  | none =>
    constructor
    · intro vs sF h
      exact Except.noConfusion h
    · intro e sF h
      simp only [] at h
      cases h
      rfl
  | some vs0 =>
    constructor
    · intro vs sF h
      simp only [] at h
      cases h
      exact ⟨rfl, rfl⟩
    · intro e sF h
      exact Except.noConfusion h

/-- Witness for `c6_pose_position_amended` on both exit paths. -/
theorem c6_pose_position_amended_witness :
    (PosePosition.rest = PosePosition.rest
      ∧ sample_all [fun s : PosePosition => some s] PosePosition.pose
          = some [PosePosition.pose])
  ∧ PosePosition.pose = PosePosition.pose := by
  refine ⟨?_, ?_⟩
  · exact (c6_pose_position_amended PosePosition.rest [fun s => some s]).1
      [PosePosition.pose] PosePosition.rest rfl
  · exact (c6_pose_position_amended PosePosition.rest
      [fun _ => (none : Option PosePosition)]).2 NifError.boneNotFound PosePosition.pose rfl

/-- C8: when no already-exported `NiNode` block bears the chosen skeleton-root
name (custom property if set, else the armature's full name), skin instance
creation fails with the fatal missing-skeleton-root error and returns no
substitute root. -/
theorem c8_missing_skeleton_root (blocks : List NifBlock)
    (skeleton_root_prop armature_full_name : String)
    (h : ∀ b ∈ blocks, ¬(b.isNiNode = true ∧
        b.name = chosen_skeleton_root_name skeleton_root_prop armature_full_name)) :
    create_skin_inst_data blocks skeleton_root_prop armature_full_name
        = .error .missingSkeletonRoot
  ∧ ∀ blk, create_skin_inst_data blocks skeleton_root_prop armature_full_name
      ≠ .ok blk := by
  have hfind : find_skeleton_root blocks
      (chosen_skeleton_root_name skeleton_root_prop armature_full_name) = none := by
    unfold find_skeleton_root
    apply find?_eq_none_of_all
    intro b hb
    have hb' := h b hb
    show (b.isNiNode && (b.name
        == chosen_skeleton_root_name skeleton_root_prop armature_full_name)) = false
    cases hn : b.isNiNode with
    | false => rfl
    | true =>
      rw [Bool.true_and, beq_eq_false_iff_ne]
      exact fun hc => hb' ⟨hn, hc⟩
  have heq : create_skin_inst_data blocks skeleton_root_prop armature_full_name
      = .error .missingSkeletonRoot := by
    unfold create_skin_inst_data
    rw [hfind]
  refine ⟨heq, fun blk hc => ?_⟩
  rw [heq] at hc
  exact Except.noConfusion hc

/-- Witness for `c8_missing_skeleton_root`: a block list containing a NiNode
with the wrong name and a non-NiNode block bearing the armature's name. -/
theorem c8_missing_skeleton_root_witness :
    create_skin_inst_data [⟨true, "SomeOtherNode"⟩, ⟨false, "Armature"⟩] "" "Armature"
        = .error .missingSkeletonRoot := by
  exact (c8_missing_skeleton_root [⟨true, "SomeOtherNode"⟩, ⟨false, "Armature"⟩]
    "" "Armature" (by decide)).1

end NifMesh
